import Mathlib

/-!
Verification development for the Flax `nnx.bridge` interoperability layer
described in `docs_nnx/guides/bridge_guide.ipynb`.

The repository ships only the guide notebook; the bridge implementation
itself (`bridge.ToNNX`, `bridge.ToLinen`, `bridge.lazy_init`, the variable
name/type registry, `nnx.reseed`) lives outside the provided sources.
Those operations are therefore modelled from the specification's words,
each marked `Modelled from the spec:`.  The modules defined inside the
notebook (`LinenDot`, `NNXOuter`, `NNXDot`, partitioned variants) are
translated from the notebook cells directly.
-/

/-! ## Arrays

Arrays are modelled as row-major integer matrices: a list of rows.
Only shape and values matter for the claims; dtype and device placement
are out of scope (the spec declares the numerical library external). -/

abbrev Arr := List (List Int)

/-- The (rows, cols) shape of an array, cols read off the first row. -/
def shape (a : Arr) : Nat × Nat := (a.length, (a.headD []).length)

/-- Dot product of two integer vectors. -/
def dotProd (u v : List Int) : Int := (List.zipWith (· * ·) u v).sum

/-- Column `j` of an array. -/
def col (b : Arr) (j : Nat) : List Int := b.map (fun r => r.getD j 0)

/-- Matrix product `a @ b` (the `x @ w` of the notebook modules). -/
def matmul (a b : Arr) : Arr :=
  a.map (fun row => (List.range (shape b).2).map (fun j => dotProd row (col b j)))

/-- Build an `m × n` array whose entry at `(i, j)` is `f i j`; this models
an initializer call such as `lecun_normal()(key, (m, n))`, which always
returns an array of the requested shape. -/
def initArr (f : Nat → Nat → Int) (m n : Nat) : Arr :=
  (List.range m).map (fun i => (List.range n).map (f i))

/-! ## Variable types and the category registry

Modelled from the spec: the Category Registry maps Linen collection
names to NNX variable subtypes.  `register(category_name, variable_subtype,
overwrite)` stores a mapping and fails exactly when `overwrite` is false
and the name is already bound to a different subtype; lookup by name
returns the registered subtype or synthesizes and caches a fresh
distinguishing subtype for a first unseen name. -/

/-- An NNX variable subtype: either one registered explicitly (e.g.
`nnx.Param` for collection `params`) or one synthesized on the fly from an
unseen collection name. -/
inductive VarType where
  | builtin (name : String)
  | auto (name : String)
deriving DecidableEq, Repr

/-- Modelled from the spec: the process-wide registry of
(category-name, variable-subtype) pairs, newest binding first. -/
structure Registry where
  pairs : List (String × VarType)
deriving DecidableEq, Repr

/-- Look a category name up among the registered pairs (no synthesis). -/
def lookupName (r : Registry) (n : String) : Option VarType :=
  (r.pairs.find? (fun p => p.1 == n)).map Prod.snd

/-- Modelled from the spec: `nnx.register_variable_name_type_pair`.
Returns an error message exactly when `overwrite` is false and the name is
already bound to a different subtype; otherwise records the binding (the
newest binding shadows older ones, so last registration wins). -/
def register_variable_name_type_pair (r : Registry) (n : String) (t : VarType)
    (overwrite : Bool) : Option String × Registry :=
  match lookupName r n with
  | some t' =>
    if t' = t then (none, r)
    else if overwrite then (none, ⟨(n, t) :: r.pairs⟩)
    else (some "category name already bound to a different subtype", r)
  | none => (none, ⟨(n, t) :: r.pairs⟩)

/-- Modelled from the spec: lookup of a category name during conversion.
Returns the registered subtype, or synthesizes a fresh subtype from the
name and caches it, so unknown categories never hard-fail. -/
def variable_type_from_name (r : Registry) (n : String) : VarType × Registry :=
  match lookupName r n with
  | some t => (t, r)
  | none => (VarType.auto n, ⟨(n, VarType.auto n) :: r.pairs⟩)

/-- Modelled from the spec: the inverse lookup used by the NNX-to-Linen
direction, mapping a variable subtype back to its collection name. -/
def variable_name_from_type (r : Registry) (t : VarType) : Option String :=
  (r.pairs.find? (fun p => p.2 == t)).map Prod.fst

/-! ## Linen modules and the stateless-to-stateful adapter (`ToNNX`) -/

/-- A stateless (Linen) module: parameters are produced by an explicit
`init(seed, sample_input)` call and passed back in on every `apply`. -/
structure LinenModule (α β P : Type) where
  init : Nat → α → P
  apply : P → α → β

/-- Modelled from the spec: the stateless-to-stateful wrapper
(`bridge.ToNNX`).  It owns a seed (the `rngs` argument) and parameter
storage that stays empty until lazy materialization. -/
structure ToNNX (α β P : Type) where
  module : LinenModule α β P
  seed : Nat
  params : Option P

/-- Construct the wrapper with empty parameter storage, as
`bridge.ToNNX(module, rngs=...)` does. -/
def toNNX {α β P : Type} (m : LinenModule α β P) (seed : Nat) : ToNNX α β P :=
  ⟨m, seed, none⟩

/-- Modelled from the spec: `bridge.lazy_init(wrapper, x)` runs the wrapped
module's native initialization on the sample input and attaches the
resulting parameters to the wrapper's own storage, in place. -/
def lazy_init {α β P : Type} (s : ToNNX α β P) (x : α) : ToNNX α β P :=
  { s with params := some (s.module.init s.seed x) }

/-- Modelled from the spec: invoking the wrapper runs the wrapped module's
`apply` with the currently stored parameters (none before
materialization). -/
def ToNNX.call {α β P : Type} (s : ToNNX α β P) (x : α) : Option β :=
  s.params.map (fun p => s.module.apply p x)

/-- In-place swap of the stored parameters, as in the notebook cell that
assigns a fresh array to the converted weight variable's value field. -/
def ToNNX.setParams {α β P : Type} (s : ToNNX α β P) (p : P) : ToNNX α β P :=
  { s with params := some p }

/-- `LinenDot` from the notebook: `w = self.param(w, w_init,
(x.shape[-1], out_dim)); return x @ w`.  The initializer `w_init` is an
abstract seeded entry function. -/
def LinenDot (outDim : Nat) (winit : Nat → Nat → Nat → Int) :
    LinenModule Arr Arr Arr where
  init := fun seed x => initArr (winit seed) (shape x).2 outDim
  apply := fun w x => matmul x w

/-! ## NNX variables and the composite module of the notebook -/

/-- An NNX variable: a value plus its subtype tag and an optional sharding
annotation carried as a side-channel field. -/
structure NNXVariable where
  varType : VarType
  value : Arr
  sharding : Option (List String)
deriving DecidableEq, Repr

/-- `NNXOuter` from the notebook: a pure-NNX module holding a `ToNNX`
wrapper around `LinenDot` and an eagerly initialized `nnx.Param` bias. -/
structure NNXOuter where
  dot : ToNNX Arr Arr Arr
  b : NNXVariable

/-- The `NNXOuter.__init__` of the notebook: the wrapped `LinenDot` starts
unmaterialized, while the bias is created eagerly from the rng seed. -/
def NNXOuter.create (outDim : Nat) (winit : Nat → Nat → Nat → Int)
    (binit : Nat → Nat → Nat → Int) (seed : Nat) : NNXOuter where
  dot := toNNX (LinenDot outDim winit) seed
  b := ⟨VarType.builtin "params", initArr (binit seed) 1 outDim, none⟩

/-- Modelled from the spec: `bridge.lazy_init` on a composite NNX module
traverses it and materializes the wrapped stateless submodule on the
sample input, leaving everything else in place. -/
def lazy_init_outer (m : NNXOuter) (x : Arr) : NNXOuter :=
  { m with dot := lazy_init m.dot x }

/-! ## Randomness streams

Modelled from the spec: a randomness stream is a seed plus an invocation
counter, mutated on every draw and resettable via `nnx.reseed`. -/

/-- The per-stream RNG state of a stateful wrapper. -/
structure RngStream where
  key : Nat
  count : Nat
deriving DecidableEq, Repr

/-- Derive a random key from the stream's seed and counter (Cantor
pairing stands in for the fold-in hash; only injectivity matters). -/
def foldIn (key count : Nat) : Nat := (key + count) * (key + count + 1) / 2 + count

/-- Draw from a stream: produce a key and advance the counter. -/
def draw (s : RngStream) : Nat × RngStream :=
  (foldIn s.key s.count, ⟨s.key, s.count + 1⟩)

/-- The stream created from a fresh seed, as `nnx.Rngs(seed)` does. -/
def initStream (seed : Nat) : RngStream := ⟨seed, 0⟩

/-- Modelled from the spec: a `ToNNX` wrapper around a stateless module
that consumes a random key per call (e.g. `nn.Dropout`); the wrapper owns
the stream state. -/
structure ToNNXRandom (α β : Type) where
  forward : α → Nat → β
  stream : RngStream

/-- Invoking the random wrapper draws one key from its stream, mutating
the counter in place. -/
def ToNNXRandom.call {α β : Type} (m : ToNNXRandom α β) (x : α) :
    β × ToNNXRandom α β :=
  let (k, s') := draw m.stream
  (m.forward x k, { m with stream := s' })

/-- Modelled from the spec: `nnx.reseed(model, stream=seed)` resets the
named stream to the given seed, zeroing its invocation counter. -/
def reseed {α β : Type} (m : ToNNXRandom α β) (seed : Nat) : ToNNXRandom α β :=
  { m with stream := initStream seed }

/-! ## The stateful-to-stateless adapter (`ToLinen`) -/

/-- The snapshot produced by a `ToLinen` functional call: flat parameter
state plus the randomness-stream state of the underlying NNX module. -/
structure ToLinenSnapshot (P : Type) where
  params : P
  stream : RngStream

/-- A stateful NNX module that consumes one random key per forward pass
(as `nnx.Dropout` does in the notebook's apply cell). -/
structure NNXRandomModule (α β P : Type) where
  forward : P → α → Nat → β

/-- Modelled from the spec: the functional `model.apply(variables, x,
rngs=...)` of a `ToLinen` wrapper.  With no external rngs the internal
stream is drawn from and its counter advanced in the returned snapshot;
with explicit external rngs the counter-based path is bypassed and the
stream is returned untouched. -/
def ToLinen.apply {α β P : Type} (m : NNXRandomModule α β P)
    (snap : ToLinenSnapshot P) (x : α) (rngs : Option Nat) :
    β × ToLinenSnapshot P :=
  match rngs with
  | some k => (m.forward snap.params x k, snap)
  | none =>
    let (k, s') := draw snap.stream
    (m.forward snap.params x k, { snap with stream := s' })

/-! ## Linen-side variable collections produced by `ToLinen` -/

/-- `bridge.NNXMeta`: the Linen partition-metadata box wrapping a
converted NNX variable; the raw array sits in `value` and the sharding
annotation travels in `metadata`. -/
structure NNXMeta where
  value : Arr
  metadata : Option (List String)
deriving DecidableEq, Repr

/-- A leaf of a Linen variables mapping: a raw array, a metadata box, or
the structural descriptor stored by `ToLinen`.  The descriptor
(`nnx.graph.NodeDef`) is modelled by the wrapped module's name, per the
spec's immutable structural descriptor. -/
inductive Leaf where
  | raw (a : Arr)
  | boxed (m : NNXMeta)
  | graphdef (g : String)
deriving DecidableEq, Repr

/-- A named collection of leaves (e.g. the params collection). -/
abbrev Collection := List (String × Leaf)

/-- The variables mapping returned by a Linen `init`: collection name to
collection. -/
abbrev Variables := List (String × Collection)

/-- Look a collection up by name in a variables mapping. -/
def getCollection (v : Variables) (n : String) : Option Collection :=
  (v.find? (fun c => c.1 == n)).map Prod.snd

/-- A stateful NNX module as seen by `bridge.to_linen`: eager variable
creation from a seed, a forward pass over those variables, and a module
name standing for its structural descriptor. -/
structure NNXStatefulModule (α β : Type) where
  initVars : Nat → List (String × NNXVariable)
  forward : List (String × NNXVariable) → α → β
  name : String

/-- Modelled from the spec: `model.init(key, x)` on a `bridge.to_linen`
wrapper (for a module whose variables all belong to the params
collection, such as `NNXDot`).  Every leaf is boxed in `NNXMeta` with the
variable's sharding annotation as metadata, and an extra `nnx` collection
stores the structural descriptor. -/
def to_linen_init {α β : Type} (m : NNXStatefulModule α β) (seed : Nat)
    (x : α) : β × Variables :=
  let vars := m.initVars seed
  (m.forward vars x,
   [("params", vars.map (fun p => (p.1, Leaf.boxed ⟨p.2.value, p.2.sharding⟩))),
    ("nnx", [("graphdef", Leaf.graphdef m.name)])])

/-- `linen.unbox` on one leaf: strip a metadata box down to its raw
array; other leaves pass through. -/
def unboxLeaf : Leaf → Leaf
  | .boxed m => .raw m.value
  | l => l

/-- `linen.unbox` over a whole variables mapping. -/
def unbox (v : Variables) : Variables :=
  v.map (fun c => (c.1, c.2.map (fun p => (p.1, unboxLeaf p.2))))

/-! ## Sharding annotation carriers -/

/-- A Linen parameter boxed by `nn.with_partitioning`: the value plus the
partition axis names. -/
structure Partitioned where
  value : Arr
  names : List String
deriving DecidableEq, Repr

/-- Modelled from the spec: the Linen-to-NNX conversion of one boxed
variable.  The subtype comes from the registry (synthesized if unseen)
and the partition names land unchanged in the sharding side-channel. -/
def to_nnx_var (r : Registry) (collection : String) (p : Partitioned) :
    NNXVariable × Registry :=
  let (t, r') := variable_type_from_name r collection
  (⟨t, p.value, some p.names⟩, r')

/-- Modelled from the spec: the NNX-to-Linen conversion of one variable,
boxing it in `NNXMeta` with the sharding annotation as metadata. -/
def to_linen_var (v : NNXVariable) : NNXMeta :=
  ⟨v.value, v.sharding⟩

/-! ## Shape lemmas for the array model -/

theorem headD_map_range {γ : Type} (g : Nat → γ) (d : γ) (m : Nat)
    (h : 0 < m) : ((List.range m).map g).headD d = g 0 := by
  cases m with
  | zero => exact absurd h (by simp)
  | succ k => rw [List.range_succ_eq_map]; rfl

theorem shape_initArr (f : Nat → Nat → Int) (m n : Nat) (h : 0 < m) :
    shape (initArr f m n) = (m, n) := by
  unfold shape initArr
  rw [headD_map_range _ _ _ h]
  simp

theorem shape_matmul (a b : Arr) (h : a ≠ []) :
    shape (matmul a b) = (a.length, (shape b).2) := by
  cases a with
  | nil => exact absurd rfl h
  | cons r t => simp [shape, matmul]

/-! ## Claim theorems -/

/-- C1: for every stateless (Linen) module and sample input, wrapping it
in the stateless-to-stateful adapter, materializing with
`bridge.lazy_init` on the input, and invoking the wrapper yields output
identical to running the module's native init followed by apply on the
same input with the same random seed. -/
theorem toNNX_lazy_init_refines_native {α β P : Type}
    (M : LinenModule α β P) (seed : Nat) (x : α) :
    (lazy_init (toNNX M seed) x).call x =
      some (M.apply (M.init seed x) x) := rfl

/-- C4: resetting a wrapped module's randomness stream to seed S via
`nnx.reseed` and re-invoking it on x reproduces exactly the output the
wrapper produced on x when it was first seeded with S. -/
theorem reseed_reproduces_first_output {α β : Type} (m : ToNNXRandom α β)
    (S : Nat) (x : α) :
    ((reseed m S).call x).1 =
      ((ToNNXRandom.mk m.forward (initStream S)).call x).1 := rfl

/-- C5: a variable created with an explicit sharding annotation keeps that
annotation unchanged as a side-channel field after conversion through
either adapter direction. -/
theorem sharding_preserved_both_directions (r : Registry) (c : String)
    (p : Partitioned) (v : NNXVariable) :
    (to_nnx_var r c p).1.sharding = some p.names ∧
    (to_linen_var v).metadata = v.sharding := ⟨rfl, rfl⟩

/-- C7: a functional apply through the stateful-to-stateless adapter
advances the randomness-stream counter in the returned snapshot, unless
the caller supplies explicit external random seeds, in which case the
internal counter-based path is bypassed and the snapshot's stream is
unchanged for that invocation. -/
theorem toLinen_apply_rng_counter {α β P : Type}
    (m : NNXRandomModule α β P) (snap : ToLinenSnapshot P) (x : α)
    (k : Nat) :
    (ToLinen.apply m snap x none).2.stream.count = snap.stream.count + 1 ∧
    (ToLinen.apply m snap x (some k)).2 = snap := ⟨rfl, rfl⟩

/-- C8: lazy materialization of a composite module that already holds an
eagerly initialized native variable mutates only the wrapped stateless
part: the converted parameters are attached to the wrapper, and every
preexisting variable keeps its value and type, the wrapped module and its
seed included. -/
theorem lazy_init_outer_frame (m : NNXOuter) (x : Arr) :
    (lazy_init_outer m x).b = m.b ∧
    (lazy_init_outer m x).dot.module = m.dot.module ∧
    (lazy_init_outer m x).dot.seed = m.dot.seed ∧
    (lazy_init_outer m x).dot.params =
      some (m.dot.module.init m.dot.seed x) := ⟨rfl, rfl, rfl, rfl⟩

theorem lookupName_cons_self (pairs : List (String × VarType)) (n : String)
    (t : VarType) : lookupName ⟨(n, t) :: pairs⟩ n = some t := by
  simp [lookupName, List.find?]

/-- C3: after registering a category name to a subtype, lookup of that
name returns the subtype; lookup of a never-registered name synthesizes a
fresh subtype without failing, and looking the same name up again returns
that same subtype with the registry unchanged (auto-registration is
idempotent). -/
theorem registry_lookup_behaviour (r : Registry) (nf nb : String)
    (t : VarType) (ow : Bool) (r' : Registry)
    (hreg : register_variable_name_type_pair r nf t ow = (none, r'))
    (hnb : lookupName r nb = none) :
    (variable_type_from_name r' nf).1 = t ∧
    (variable_type_from_name r nb).1 = VarType.auto nb ∧
    variable_type_from_name (variable_type_from_name r nb).2 nb =
      variable_type_from_name r nb := by
  refine ⟨?_, ?_, ?_⟩
  · unfold register_variable_name_type_pair at hreg
    cases hfind : lookupName r nf with
    | some t' =>
      simp only [hfind] at hreg
      by_cases ht : t' = t
      · rw [if_pos ht] at hreg
        have hr : r = r' := congrArg Prod.snd hreg
        subst hr
        unfold variable_type_from_name
        rw [hfind, ht]
      · rw [if_neg ht] at hreg
        cases ow with
        | true =>
          rw [if_pos rfl] at hreg
          have hr : Registry.mk ((nf, t) :: r.pairs) = r' :=
            congrArg Prod.snd hreg
          subst hr
          unfold variable_type_from_name
          rw [lookupName_cons_self]
        | false =>
          exact absurd (congrArg Prod.fst hreg) (by simp)
    | none =>
      simp only [hfind] at hreg
      have hr : Registry.mk ((nf, t) :: r.pairs) = r' :=
        congrArg Prod.snd hreg
      subst hr
      unfold variable_type_from_name
      rw [lookupName_cons_self]
  · unfold variable_type_from_name
    rw [hnb]
  · unfold variable_type_from_name
    rw [hnb, lookupName_cons_self]

/-- C3 witness: registering category foo to a builtin subtype in the empty
registry and probing the never-registered category bar. -/
theorem registry_lookup_behaviour_witness :
    register_variable_name_type_pair ⟨[]⟩ "foo" (VarType.builtin "T") false =
      (none, ⟨[("foo", VarType.builtin "T")]⟩) ∧
    lookupName ⟨[]⟩ "bar" = none ∧
    ((variable_type_from_name ⟨[("foo", VarType.builtin "T")]⟩ "foo").1 =
        VarType.builtin "T" ∧
      (variable_type_from_name ⟨[]⟩ "bar").1 = VarType.auto "bar" ∧
      variable_type_from_name (variable_type_from_name ⟨[]⟩ "bar").2 "bar" =
        variable_type_from_name ⟨[]⟩ "bar") :=
  ⟨by decide, by decide,
    registry_lookup_behaviour ⟨[]⟩ "foo" "bar" (VarType.builtin "T") false
      ⟨[("foo", VarType.builtin "T")]⟩ (by decide) (by decide)⟩

/-- C6: registration returns no error on success and fails exactly when
the overwrite flag is false and the category name is already bound to a
different subtype; on failure the registry is left unchanged. -/
theorem register_failure_characterization (r : Registry) (n : String)
    (t : VarType) (ow : Bool) :
    ((register_variable_name_type_pair r n t ow).1.isSome ↔
      ow = false ∧ ∃ t', lookupName r n = some t' ∧ t' ≠ t) ∧
    ((register_variable_name_type_pair r n t ow).1 = none ∨
      (register_variable_name_type_pair r n t ow).2 = r) := by
  unfold register_variable_name_type_pair
  cases hfind : lookupName r n with
  | none => simp
  | some t' =>
    by_cases ht : t' = t
    · subst ht
      simp
    · cases ow with
      | true => simp [ht]
      | false => simp [ht]

/-- C2: for a wrapper around a 32-to-64 linear transform and a sample
input of batch size 4, lazy materialization attaches a weight of shape
(32, 64) and invoking the module yields an output of shape (4, 64). -/
theorem linenDot_to_nnx_shapes (winit : Nat → Nat → Nat → Int) (seed : Nat)
    (x : Arr) (hx : shape x = (4, 32)) :
    ∃ w : Arr,
      (lazy_init (toNNX (LinenDot 64 winit) seed) x).params = some w ∧
      shape w = (32, 64) ∧
      (lazy_init (toNNX (LinenDot 64 winit) seed) x).call x =
        some (matmul x w) ∧
      shape (matmul x w) = (4, 64) := by
  have h2 : (shape x).2 = 32 := by rw [hx]
  have h1 : x.length = 4 := by
    have h := congrArg Prod.fst hx
    simpa [shape] using h
  refine ⟨initArr (winit seed) 32 64, ?_, ?_, ?_, ?_⟩
  · show some (initArr (winit seed) (shape x).2 64) = _
    rw [h2]
  · exact shape_initArr _ 32 64 (by norm_num)
  · show some (matmul x (initArr (winit seed) (shape x).2 64)) = _
    rw [h2]
  · have hne : x ≠ [] := by
      intro h
      rw [h] at h1
      simp at h1
    rw [shape_matmul x _ hne, h1, shape_initArr (winit seed) 32 64 (by norm_num)]

/-- C2 witness: the concrete zero input of shape (4, 32) with a zero
initializer. -/
theorem linenDot_to_nnx_shapes_witness :
    shape (List.replicate 4 (List.replicate 32 (0 : Int))) = (4, 32) ∧
    (∃ w : Arr,
      (lazy_init (toNNX (LinenDot 64 (fun _ _ _ => 0)) 0)
          (List.replicate 4 (List.replicate 32 (0 : Int)))).params = some w ∧
      shape w = (32, 64) ∧
      (lazy_init (toNNX (LinenDot 64 (fun _ _ _ => 0)) 0)
          (List.replicate 4 (List.replicate 32 (0 : Int)))).call
          (List.replicate 4 (List.replicate 32 (0 : Int))) =
        some (matmul (List.replicate 4 (List.replicate 32 (0 : Int))) w) ∧
      shape (matmul (List.replicate 4 (List.replicate 32 (0 : Int))) w) =
        (4, 64)) :=
  ⟨by decide, linenDot_to_nnx_shapes (fun _ _ _ => 0) 0 _ (by decide)⟩

/-- C9 counterexample: with the zero input, two different stored weight
values give the same wrapper output, so two different weight values do
not always produce different outputs on the same input. -/
theorem toNNX_distinct_weights_counterexample :
    ([[(0 : Int)]] : Arr) ≠ [[(1 : Int)]] ∧
    ((toNNX (LinenDot 1 (fun _ _ _ => 0)) 0).setParams
        [[(0 : Int)]]).call [[(0 : Int)]] =
      ((toNNX (LinenDot 1 (fun _ _ _ => 0)) 0).setParams
        [[(1 : Int)]]).call [[(0 : Int)]] := by
  decide

/-- C9 (amended): the wrapper reads the currently stored variable value on
every invocation, so after an in-place swap the output is the wrapped
module's apply at the new value; two different weight values therefore
produce different outputs on the same input exactly when the underlying
applications differ, and weights and an input with differing outputs do
exist. -/
theorem toNNX_reads_current_value (s : ToNNX Arr Arr Arr) (w1 w2 x : Arr) :
    (s.setParams w1).call x = some (s.module.apply w1 x) ∧
    ((s.setParams w1).call x = (s.setParams w2).call x →
      s.module.apply w1 x = s.module.apply w2 x) ∧
    (∃ d : ToNNX Arr Arr Arr, ∃ v1 v2 y : Arr,
      v1 ≠ v2 ∧ (d.setParams v1).call y ≠ (d.setParams v2).call y) := by
  refine ⟨rfl, ?_, ?_⟩
  · intro h
    simpa [ToNNX.call, ToNNX.setParams] using h
  · exact ⟨toNNX (LinenDot 1 (fun _ _ _ => 1)) 0, [[0]], [[1]], [[1]],
      by decide, by decide⟩

/-- C10: every leaf of the parameter collections returned by the
stateful-to-stateless adapter's init is an `NNXMeta` box whose `value`
field holds the raw array, the variables mapping carries an extra `nnx`
collection with the structural descriptor, and `linen.unbox` strips the
boxes down to the raw-array tree. -/
theorem to_linen_init_boxed_and_unbox {α β : Type}
    (m : NNXStatefulModule α β) (seed : Nat) (x : α) :
    (∀ c ∈ (to_linen_init m seed x).2, c.1 ≠ "nnx" →
      ∀ p ∈ c.2, ∃ meta : NNXMeta, p.2 = Leaf.boxed meta) ∧
    getCollection (to_linen_init m seed x).2 "params" =
      some ((m.initVars seed).map
        (fun p => (p.1, Leaf.boxed ⟨p.2.value, p.2.sharding⟩))) ∧
    getCollection (to_linen_init m seed x).2 "nnx" =
      some [("graphdef", Leaf.graphdef m.name)] ∧
    unbox (to_linen_init m seed x).2 =
      [("params", (m.initVars seed).map (fun p => (p.1, Leaf.raw p.2.value))),
       ("nnx", [("graphdef", Leaf.graphdef m.name)])] := by
  refine ⟨?_, ?_, ?_, ?_⟩
  · intro c hc hcn p hp
    have hc' : c = ("params", (m.initVars seed).map
        (fun p => (p.1, Leaf.boxed ⟨p.2.value, p.2.sharding⟩))) ∨
        c = ("nnx", [("graphdef", Leaf.graphdef m.name)]) := by
      simpa [to_linen_init] using hc
    rcases hc' with h | h
    · subst h
      simp only [List.mem_map] at hp
      obtain ⟨q, hq, hpq⟩ := hp
      exact ⟨⟨q.2.value, q.2.sharding⟩, by rw [← hpq]⟩
    · subst h
      exact absurd rfl hcn
  · rfl
  · rfl
  · simp [unbox, to_linen_init, unboxLeaf, List.map_map, Function.comp]
